import Mathlib

/-!
Verification of the farm bundler core against its specification.

The definitions below are a shallow embedding of the Rust sources:
* `crates/core/src/cache/{mod,module_cache}.rs` — the persistent module cache,
* `crates/plugin_partial_bundling/src/{module_bucket,generate_resource_pots}.rs`
  — the partial-bundling engine,
* `crates/node/src/lib.rs` — the napi surface (`resources`, `resource`) and the
  filesystem watcher,
* `rust-plugins/sass/src/lib.rs` — the sass plugin option parsing.

Filesystem state is passed explicitly (`Fs`), machine integers are `Nat`
(Rust `usize` subtraction, which panics on underflow, is modelled with
`Option`), and operations that can panic return an explicit outcome type.
-/

namespace Farm

/-- Module type classification (spec §3; the Rust `ModuleType` enum lives
outside the excerpted sources, modelled from the spec: script, css, html,
asset, or a named custom type). -/
inductive ModuleType where
  | script
  | css
  | html
  | asset
  | custom (name : String)
  deriving DecidableEq, Repr

/-- Dependency kind carried by an analyzed dep entry. Modelled from the spec:
"static import, dynamic import, require-like, url-reference, entry" (§3,
ModuleEdge); the Rust `ResolveKind` enum is outside the excerpted sources. -/
inductive DepKind where
  | staticImport
  | dynamicImport
  | requireLike
  | urlReference
  | entry (name : String)
  deriving DecidableEq, Repr

/-- Modelled from the spec: `Module` attributes (§3) — the Rust definition in
`crates/core/src/module/mod.rs` is outside the excerpted sources. `meta` is an
opaque per-type payload, modelled as a string. -/
structure Module where
  id : String
  moduleType : ModuleType
  content : String
  contentHash : String
  meta : String
  sideEffects : Bool
  external : Bool
  immutable : Bool
  sourceMap : Option String
  deriving DecidableEq, Repr

/-- `PluginAnalyzeDepsHookResultEntry` (spec §3, ModuleEdge): raw specifier,
kind, and source-order ordinal. -/
structure DepEntry where
  source : String
  kind : DepKind
  order : Nat
  deriving DecidableEq, Repr

/-- `CachedModule { module, deps }` from `cache/module_cache.rs`. -/
structure CachedModule where
  module : Module
  deps : List DepEntry
  deriving DecidableEq, Repr

/-! ### Serialization

The Rust code serializes `CachedModule` with rkyv (`serialize!` /
`deserialize!`). Modelled from the spec: a binary format whose
deserialization faithfully inverts serialization ("serialized ... in a
versioned zero-copy binary format"; §4.6). The encoding below is an
executable length-prefixed byte encoding with a proved round trip. -/

/-- Encode a boolean as one byte. -/
def encBool (b : Bool) : List Nat :=
  [cond b 1 0]

/-- Decode a boolean byte. -/
def decBool : List Nat → Option (Bool × List Nat)
  | 0 :: r => some (false, r)
  | 1 :: r => some (true, r)
  | _ => none

/-- Encode a string: length prefix then code points. -/
def encStr (s : String) : List Nat :=
  s.data.length :: s.data.map Char.toNat

/-- Decode a length-prefixed string. -/
def decStr : List Nat → Option (String × List Nat)
  | [] => none
  | n :: rest =>
    if n ≤ rest.length then
      some (String.mk ((rest.take n).map Char.ofNat), rest.drop n)
    else
      none

/-- Encode an optional string. -/
def encOptStr : Option String → List Nat
  | none => [0]
  | some s => 1 :: encStr s

/-- Decode an optional string. -/
def decOptStr : List Nat → Option (Option String × List Nat)
  | 0 :: r => some (none, r)
  | 1 :: r => (decStr r).bind fun p => some (some p.1, p.2)
  | _ => none

/-- Encode a module type. -/
def encModuleType : ModuleType → List Nat
  | .script => [0]
  | .css => [1]
  | .html => [2]
  | .asset => [3]
  | .custom s => 4 :: encStr s

/-- Decode a module type. -/
def decModuleType : List Nat → Option (ModuleType × List Nat)
  | 0 :: r => some (.script, r)
  | 1 :: r => some (.css, r)
  | 2 :: r => some (.html, r)
  | 3 :: r => some (.asset, r)
  | 4 :: r => (decStr r).bind fun p => some (.custom p.1, p.2)
  | _ => none

/-- Encode a dep kind. -/
def encDepKind : DepKind → List Nat
  | .staticImport => [0]
  | .dynamicImport => [1]
  | .requireLike => [2]
  | .urlReference => [3]
  | .entry s => 4 :: encStr s

/-- Decode a dep kind. -/
def decDepKind : List Nat → Option (DepKind × List Nat)
  | 0 :: r => some (.staticImport, r)
  | 1 :: r => some (.dynamicImport, r)
  | 2 :: r => some (.requireLike, r)
  | 3 :: r => some (.urlReference, r)
  | 4 :: r => (decStr r).bind fun p => some (.entry p.1, p.2)
  | _ => none

/-- Encode a module. -/
def encModule (m : Module) : List Nat :=
  encStr m.id ++ encModuleType m.moduleType ++ encStr m.content ++
    encStr m.contentHash ++ encStr m.meta ++ encBool m.sideEffects ++
    encBool m.external ++ encBool m.immutable ++ encOptStr m.sourceMap

/-- Decode a module. -/
def decModule (l : List Nat) : Option (Module × List Nat) :=
  (decStr l).bind fun p1 =>
  (decModuleType p1.2).bind fun p2 =>
  (decStr p2.2).bind fun p3 =>
  (decStr p3.2).bind fun p4 =>
  (decStr p4.2).bind fun p5 =>
  (decBool p5.2).bind fun p6 =>
  (decBool p6.2).bind fun p7 =>
  (decBool p7.2).bind fun p8 =>
  (decOptStr p8.2).bind fun p9 =>
  some ({ id := p1.1, moduleType := p2.1, content := p3.1, contentHash := p4.1,
          meta := p5.1, sideEffects := p6.1, external := p7.1, immutable := p8.1,
          sourceMap := p9.1 }, p9.2)

/-- Encode a dep entry. -/
def encDepEntry (d : DepEntry) : List Nat :=
  encStr d.source ++ encDepKind d.kind ++ [d.order]

/-- Decode a dep entry. -/
def decDepEntry (l : List Nat) : Option (DepEntry × List Nat) :=
  (decStr l).bind fun p1 =>
  (decDepKind p1.2).bind fun p2 =>
  match p2.2 with
  | n :: r => some ({ source := p1.1, kind := p2.1, order := n }, r)
  | [] => none

/-- Encode a list with a count prefix. -/
def encList (f : α → List Nat) (xs : List α) : List Nat :=
  xs.length :: (xs.map f).flatten

/-- Decode `k` consecutive elements. -/
def decListAux (dec : List Nat → Option (α × List Nat)) :
    Nat → List Nat → Option (List α × List Nat)
  | 0, l => some ([], l)
  | Nat.succ k, l =>
    (dec l).bind fun p =>
    (decListAux dec k p.2).bind fun q =>
    some (p.1 :: q.1, q.2)

/-- Decode a count-prefixed list. -/
def decList (dec : List Nat → Option (α × List Nat)) :
    List Nat → Option (List α × List Nat)
  | [] => none
  | n :: rest => decListAux dec n rest

/-- `serialize!(module)` — the byte image of a `CachedModule`. -/
def serialize (c : CachedModule) : List Nat :=
  encModule c.module ++ encList encDepEntry c.deps

/-- Decode a `CachedModule` with remainder. -/
def decCachedModule (l : List Nat) : Option (CachedModule × List Nat) :=
  (decModule l).bind fun p1 =>
  (decList decDepEntry p1.2).bind fun p2 =>
  some ({ module := p1.1, deps := p2.1 }, p2.2)

/-- `deserialize!(&bytes, CachedModule)` — requires the bytes to be consumed
exactly. -/
def deserialize (l : List Nat) : Option CachedModule :=
  match decCachedModule l with
  | some (c, []) => some c
  | _ => none

/-! ### Filesystem model and the module cache manager -/

/-- Filesystem state: a map from absolute path to file bytes. -/
def Fs : Type := String → Option (List Nat)

/-- The empty filesystem. -/
def fsEmpty : Fs := fun _ => none

/-- `std::fs::write` on a filesystem that accepts the write. -/
def fsWrite (fs : Fs) (path : String) (bytes : List Nat) : Fs :=
  fun q => if q = path then some bytes else fs q

/-- `Path::join` for the unix-style paths the cache uses. -/
def pathJoin (a b : String) : String :=
  a ++ "/" ++ b

/-- `ModuleCacheManager` from `cache/module_cache.rs`: holds the cache root
directory. -/
structure ModuleCacheManager where
  cacheDir : String
  deriving DecidableEq, Repr

/-- `ModuleCacheManager::new(root)` as written in `cache/module_cache.rs`:
roots the cache at `root/node_modules/.farm/cache`. -/
def ModuleCacheManager.newFromRoot (root : String) : ModuleCacheManager :=
  { cacheDir := root ++ "/node_modules/.farm/cache" }

/-- Build mode (`config::Mode`): development or production. -/
inductive Mode where
  | development
  | production
  deriving DecidableEq, Repr

/-- Directory-name form of a mode. -/
def Mode.str : Mode → String
  | .development => "development"
  | .production => "production"

/-- Modelled from the spec: the `(cache_dir, namespace, mode)` constructor of
`ModuleCacheManager` that `CacheManager::new` in `cache/mod.rs` calls is
absent from the excerpted sources; the spec mandates the layout
`<cache_dir>/<namespace>/<mode>/modules/<hex-content-hash>` (§6). -/
def ModuleCacheManager.newSpec (cacheDir ns : String) (mode : Mode) :
    ModuleCacheManager :=
  { cacheDir := cacheDir ++ "/" ++ ns ++ "/" ++ Mode.str mode ++ "/modules" }

/-- `CacheManager` from `cache/mod.rs`. -/
structure CacheManager where
  moduleCache : ModuleCacheManager
  deriving DecidableEq, Repr

/-- `CacheManager::new(cache_dir, namespace, mode)` from `cache/mod.rs`,
delegating to the three-argument module-cache constructor. -/
def CacheManager.new (cacheDir ns : String) (mode : Mode) : CacheManager :=
  { moduleCache := ModuleCacheManager.newSpec cacheDir ns mode }

/-- The on-disk path of the entry for a key: `self.cache_dir.flatten(code_hash)`. -/
def cacheEntryPath (mgr : ModuleCacheManager) (codeHash : String) : String :=
  pathJoin mgr.cacheDir codeHash

/-- `has_module_cache`: `self.cache_dir.flatten(code_hash).exists()`. -/
def hasModuleCache (mgr : ModuleCacheManager) (fs : Fs) (codeHash : String) :
    Bool :=
  (fs (cacheEntryPath mgr codeHash)).isSome

/-- `set_module_cache`: serialize and `std::fs::write` to the entry path
(the successful-write case; the `.unwrap()` on the write result is examined
through `setModuleCacheOps` below). -/
def setModuleCache (mgr : ModuleCacheManager) (fs : Fs) (codeHash : String)
    (v : CachedModule) : Fs :=
  fsWrite fs (cacheEntryPath mgr codeHash) (serialize v)

/-- Outcome of `get_module_cache`: either a value or a panic (the source calls
`.unwrap()` on `std::fs::read` and asserts the deserialization). -/
inductive GetOutcome where
  | panicked
  | value (v : CachedModule)
  deriving DecidableEq, Repr

/-- `get_module_cache`: read the entry path and deserialize. A failed read
(`std::fs::read(path).unwrap()`) or a failed deserialization panics. -/
def getModuleCache (mgr : ModuleCacheManager) (fs : Fs) (codeHash : String) :
    GetOutcome :=
  match fs (cacheEntryPath mgr codeHash) with
  | none => .panicked
  | some bytes =>
    match deserialize bytes with
    | some v => .value v
    | none => .panicked

/-- A filesystem operation performed by the cache writer. -/
inductive FsOp where
  | write (path : String) (bytes : List Nat)
  | rename (src dst : String)
  deriving DecidableEq, Repr

/-- Whether an operation is a rename. -/
def FsOp.isRename : FsOp → Bool
  | .write _ _ => false
  | .rename _ _ => true

/-- The trace of filesystem operations `set_module_cache` performs: a single
direct `std::fs::write` to the final entry path. -/
def setModuleCacheOps (mgr : ModuleCacheManager) (codeHash : String)
    (v : CachedModule) : List FsOp :=
  [.write (cacheEntryPath mgr codeHash) (serialize v)]

/-! ### Partial bundling: resource pot names (generate_resource_pots.rs) -/

/-- Association-list lookup (used for `module_graph.entries` and the
resources map). -/
def assocLookup (xs : List (String × α)) (k : String) : Option α :=
  match xs with
  | [] => none
  | (k', v) :: rest => if k = k' then some v else assocLookup rest k

/-- Split a character list at a separator character. -/
def splitCharsAux (sep : Char) : List Char → List Char → List (List Char)
  | [], acc => [acc.reverse]
  | c :: cs, acc =>
    if c = sep then acc.reverse :: splitCharsAux sep cs []
    else splitCharsAux sep cs (c :: acc)

/-- Split a string at a separator character (the single-separator case of
`str::split` / `Path::components`). -/
def splitOnChar (sep : Char) (s : String) : List String :=
  (splitCharsAux sep s.data []).map String.mk

/-- Join strings with a dot between them. -/
def joinDots : List String → String
  | [] => ""
  | [x] => x
  | x :: xs => x ++ "." ++ joinDots xs

/-- Modelled from the spec: `try_get_filename` (the `utils` module is outside
the excerpted sources): the final filename without its extension ("the group
id's final filename without extension", §4.5; the source test maps
`test/src/api.ts` to `api`). `stripExtension` drops the part after the last
dot. -/
def stripExtension (s : String) : String :=
  let parts := splitOnChar '.' s
  if parts.length ≤ 1 then s
  else joinDots parts.dropLast

/-- Filename (without extension) of a path given as its component list. -/
def tryGetFilename (comps : List String) : String :=
  stripExtension (comps.getLastD "")

/-- The collision loop of `generate_resource_pot_name`, on the reversed
component list of the module group id: step to the parent path; stop (keeping
the current name) once the parent would be the root; otherwise prepend the
parent's filename with an underscore and stop as soon as the name is unused.
When every proper ancestor is exhausted the last computed name is returned
even if it is still in use (as in the source's own test). -/
def potNameLoop (used : List String) : List String → String → String
  | [], name => name
  | _ :: rest, name =>
    match rest with
    | [] => name
    | comp :: _ =>
      let name' := stripExtension comp ++ "_" ++ name
      if name' ∈ used then potNameLoop used rest name' else name'

/-- `generate_resource_pot_name(module_group_id, used_resource_pot_names,
module_graph)`: the configured entry name when the group id is an entry,
otherwise the filename without extension, disambiguated against used names by
prepending parent path segments. `entries` is the graph's entries map. -/
def generateResourcePotName (entries : List (String × String))
    (used : List String) (moduleGroupId : String) : String :=
  match assocLookup entries moduleGroupId with
  | some name => name
  | none =>
    let comps := splitOnChar '/' moduleGroupId
    let name := tryGetFilename comps
    if name ∈ used then potNameLoop used comps.reverse name else name

/-! ### Partial bundling: bucket processing order (module_bucket.rs) -/

/-- The data `find_best_process_bucket` reads from a bucket: `config.weight`,
`total_size()` and `resource_units().len()`. -/
structure BucketStats where
  weight : Nat
  totalSize : Nat
  unitsCount : Nat
  deriving DecidableEq, Repr

/-- One comparison step of the `reduce` in `find_best_process_bucket`:
compare weights, then `total_size * resource_units_count`, then
`resource_units_count`; keep the left bucket when all three tie. -/
def betterBucket (stats : String → BucketStats) (a b : String) : String :=
  if (stats a).weight ≠ (stats b).weight then
    (if (stats a).weight > (stats b).weight then a else b)
  else if (stats a).totalSize * (stats a).unitsCount ≠
      (stats b).totalSize * (stats b).unitsCount then
    (if (stats a).totalSize * (stats a).unitsCount >
        (stats b).totalSize * (stats b).unitsCount then a
     else b)
  else if (stats a).unitsCount ≠ (stats b).unitsCount then
    (if (stats a).unitsCount > (stats b).unitsCount then a else b)
  else a

/-- `find_best_process_bucket(module_bucket_ids, module_bucket_map)`: `reduce`
over the id set in its iteration order (`none` models the `unwrap` panic on an
empty set). The bucket map is modelled by the `stats` projection. -/
def findBestProcessBucket (stats : String → BucketStats) :
    List String → Option String
  | [] => none
  | x :: xs => some (xs.foldl (betterBucket stats) x)

/-- The key the comparison orders by: (weight, total_size × units_count,
units_count). -/
def statKey (s : BucketStats) : Nat × Nat × Nat :=
  (s.weight, s.totalSize * s.unitsCount, s.unitsCount)

/-- Strict lexicographic order on comparison keys. -/
def tripleLt (k1 k2 : Nat × Nat × Nat) : Prop :=
  k1.1 < k2.1 ∨
    (k1.1 = k2.1 ∧
      (k1.2.1 < k2.2.1 ∨ (k1.2.1 = k2.2.1 ∧ k1.2.2 < k2.2.2)))

instance (k1 k2 : Nat × Nat × Nat) : Decidable (tripleLt k1 k2) := by
  unfold tripleLt
  infer_instance

/-- Strict "processed first" order on buckets: `a` loses to `b`. -/
def bucketLt (stats : String → BucketStats) (a b : String) : Prop :=
  tripleLt (statKey (stats a)) (statKey (stats b))

instance (stats : String → BucketStats) (a b : String) :
    Decidable (bucketLt stats a b) := by
  unfold bucketLt
  infer_instance

/-! ### Partial bundling: ModuleBucket size accumulators (module_bucket.rs) -/

/-- `ModuleBucket`: id, module set, `config.weight`, contributed resource
units, and the per-type size accumulators (`size: HashMap<ModuleType, usize>`
as an association list). -/
structure ModuleBucket where
  id : String
  modules : List String
  weight : Nat
  resourceUnits : List String
  size : List (ModuleType × Nat)
  deriving DecidableEq, Repr

/-- `ModuleBucket::new(id, modules, config)`: empty resource units and empty
size map. -/
def ModuleBucket.new (id : String) (modules : List String) (weight : Nat) :
    ModuleBucket :=
  { id := id, modules := modules, weight := weight, resourceUnits := [],
    size := [] }

/-- Lookup in the size map. -/
def sizeLookup : List (ModuleType × Nat) → ModuleType → Option Nat
  | [], _ => none
  | (t, n) :: rest, q => if q = t then some n else sizeLookup rest q

/-- In-place update of an existing key of the size map. -/
def sizeUpdate : List (ModuleType × Nat) → ModuleType → Nat →
    List (ModuleType × Nat)
  | [], _, _ => []
  | (t, n) :: rest, q, v =>
    if q = t then (t, v) :: rest else (t, n) :: sizeUpdate rest q v

/-- `add_size`: insert the key with 0 when absent, then `+= size`. -/
def ModuleBucket.addSize (b : ModuleBucket) (t : ModuleType) (s : Nat) :
    ModuleBucket :=
  match sizeLookup b.size t with
  | some v => { b with size := sizeUpdate b.size t (v + s) }
  | none => { b with size := b.size ++ [(t, s)] }

/-- `sub_size`: when the key is present, `-= size` on a `usize` — `none`
models the underflow panic when `size` exceeds the accumulator; a no-op when
the key is absent. -/
def ModuleBucket.subSize (b : ModuleBucket) (t : ModuleType) (s : Nat) :
    Option ModuleBucket :=
  match sizeLookup b.size t with
  | some v =>
    if s ≤ v then some { b with size := sizeUpdate b.size t (v - s) } else none
  | none => some b

/-- `HashSet::insert`. -/
def listInsert (xs : List String) (x : String) : List String :=
  if x ∈ xs then xs else x :: xs

/-- `add_module(module_id, module_type, size)`: insert the module and add its
size. -/
def ModuleBucket.addModule (b : ModuleBucket) (m : String) (t : ModuleType)
    (s : Nat) : ModuleBucket :=
  ModuleBucket.addSize { b with modules := listInsert b.modules m } t s

/-- `remove_module(module_id, module_type, size)`: `sub_size` first
(unconditionally), then remove the module from the set, returning whether it
was present. `none` models the underflow panic inside `sub_size`. -/
def ModuleBucket.removeModule (b : ModuleBucket) (m : String)
    (t : ModuleType) (s : Nat) : Option (ModuleBucket × Bool) :=
  (b.subSize t s).map fun b' =>
    ({ b' with modules := b'.modules.erase m }, b'.modules.contains m)

/-- One call against a bucket. -/
inductive BucketOp where
  | add (m : String) (t : ModuleType) (s : Nat)
  | remove (m : String) (t : ModuleType) (s : Nat)
  deriving DecidableEq, Repr

/-- Apply one call; `none` is a panic. -/
def applyBucketOp (b : ModuleBucket) : BucketOp → Option ModuleBucket
  | .add m t s => some (b.addModule m t s)
  | .remove m t s => (b.removeModule m t s).map (·.1)

/-- Run a call sequence; `none` is a panic at some call. -/
def runBucketOps (b : ModuleBucket) : List BucketOp → Option ModuleBucket
  | [] => some b
  | op :: ops =>
    match applyBucketOp b op with
    | none => none
    | some b' => runBucketOps b' ops

/-- Ghost state of a call sequence: the adds not yet removed, with the type
and size each module was added with. -/
abbrev Ghost := List (String × ModuleType × Nat)

/-- Drop the ghost entries of a module. -/
def ghostRemove : Ghost → String → Ghost
  | [], _ => []
  | e :: g, m =>
    if e.1 = m then ghostRemove g m else e :: ghostRemove g m

/-- The claim's precondition on a call sequence, from ghost state `g`: each
`remove_module(m, t, s)` is preceded by a matching `add_module(m, t, s)` not
yet removed (and a module is not added again while still present). -/
def matchedTrace : Ghost → List BucketOp → Prop
  | _, [] => True
  | g, .add m t s :: ops =>
    ¬ m ∈ g.map (·.1) ∧ matchedTrace ((m, t, s) :: g) ops
  | g, .remove m t s :: ops =>
    (m, t, s) ∈ g ∧ matchedTrace (ghostRemove g m) ops

instance : ∀ (g : Ghost) (ops : List BucketOp),
    Decidable (matchedTrace g ops)
  | _, [] => by
    unfold matchedTrace
    infer_instance
  | g, .add m t s :: ops =>
    have := instDecidableMatchedTrace ((m, t, s) :: g) ops
    by
      unfold matchedTrace
      infer_instance
  | g, .remove m t s :: ops =>
    have := instDecidableMatchedTrace (ghostRemove g m) ops
    by
      unfold matchedTrace
      infer_instance

/-- Run the ghost state through a call sequence. -/
def ghostRun : Ghost → List BucketOp → Ghost
  | g, [] => g
  | g, .add m t s :: ops => ghostRun ((m, t, s) :: g) ops
  | g, .remove m _ _ :: ops => ghostRun (ghostRemove g m) ops

/-- Total size of the ghost entries of one module type. -/
def typeSum : Ghost → ModuleType → Nat
  | [], _ => 0
  | e :: g, t => (if e.2.1 = t then e.2.2 else 0) + typeSum g t

/-- Value of a per-type size accumulator (0 when the key is absent). -/
def sizeVal (b : ModuleBucket) (t : ModuleType) : Nat :=
  (sizeLookup b.size t).getD 0

/-- The coupling invariant between a bucket and the ghost state of its call
sequence: the module set is exactly the outstanding adds, each per-type size
accumulator is the sum of the sizes of the outstanding adds of that type, and
both are duplicate-free. -/
def BucketInv (b : ModuleBucket) (g : Ghost) : Prop :=
  (∀ x, x ∈ b.modules ↔ x ∈ g.map (·.1)) ∧
  (∀ t, sizeVal b t = typeSum g t) ∧
  b.modules.Nodup ∧ (g.map (·.1)).Nodup

/-! ### Watcher (crates/node/src/lib.rs, FsWatcher::watch) -/

/-- The component sequence `FsWatcher::watch` (macOS/Windows) subscribes to:
for each index into the first path, keep its component exactly when every
other path has an equal component at that same index — indices past a
mismatch are still considered. `none` when the path list is empty (the
function returns early without subscribing). -/
def watchRootComps : List (List String) → Option (List String)
  | [] => none
  | first :: rest =>
    some (first.enum.filterMap fun p =>
      if rest.all fun item =>
          decide (p.1 < item.length) && (item.getD p.1 "" == p.2)
      then some p.2 else none)

/-- Modelled from the spec: the longest common path prefix of two component
sequences ("the maximal sequence of leading components shared by every path",
§4.8). -/
def commonHead2 : List String → List String → List String
  | a :: as, b :: bs => if a = b then a :: commonHead2 as bs else []
  | _, _ => []

/-- Modelled from the spec: the longest common path prefix of all requested
paths; `none` for an empty request list. -/
def longestCommonHead : List (List String) → Option (List String)
  | [] => none
  | first :: rest => some (rest.foldl commonHead2 first)

/-! ### Sass plugin option parsing (rust-plugins/sass/src/lib.rs) -/

/-- A JSON value (`serde_json::Value`). -/
inductive JValue where
  | null
  | jbool (b : Bool)
  | num (n : Int)
  | str (s : String)
  | arr (xs : List JValue)
  | obj (fields : List (String × JValue))

/-- `Value::get(key).unwrap_or(&Value::Null)`. -/
def jGet : JValue → String → JValue
  | .obj fields, key => (assocLookup fields key).getD .null
  | _, _ => .null

/-- The sass settings value (`grass::Options`, restricted to the fields the
plugin sets). -/
structure SassOptions where
  quiet : Bool
  allowsCharset : Bool
  unicodeErrorMessages : Bool
  loadPaths : List String
  deriving DecidableEq, Repr

/-- `grass::Options::default()` — modelled from the grass library defaults
(the grass crate is outside this repository): not quiet, charset allowed,
unicode error messages on, no load paths. -/
def grassDefault : SassOptions :=
  { quiet := false, allowsCharset := true, unicodeErrorMessages := true,
    loadPaths := [] }

/-- The body of `get_sass_options` as a function of the parsed options value
and the root: read `quiet`, `allows_charset`, `unicode_error_messages` when
they are JSON booleans, and set the load paths to the root followed by the
string entries of `load_paths`. -/
def sassOptionsFromJson (v : JValue) (root : String) : SassOptions :=
  let o1 := match jGet v "quiet" with
    | .jbool b => { grassDefault with quiet := b }
    | _ => grassDefault
  let o2 := match jGet v "allows_charset" with
    | .jbool b => { o1 with allowsCharset := b }
    | _ => o1
  let o3 := match jGet v "unicode_error_messages" with
    | .jbool b => { o2 with unicodeErrorMessages := b }
    | _ => o2
  let lp := match jGet v "load_paths" with
    | .arr xs => xs.filterMap fun x =>
        match x with
        | .str s => some s
        | _ => none
    | _ => []
  { o3 with loadPaths := root :: lp }

/-- Modelled from the spec: option parsing as a free function over
`(options, root)` returning a settings value (§9); `options` is the parsed
options JSON string argument. -/
def getSassOptionsSpec (options : JValue) (root : String) : SassOptions :=
  sassOptionsFromJson options root

/-- The behavior of the source's `get_sass_options`: it parses
`self.sass_options` — not the `options` argument — via
`serde_json::from_str(&self.sass_options).unwrap_or_default()`. Since
`self.sass_options` is a `grass::Options` rather than the options JSON string
(and `FarmPluginSass::new` refers to `self` before any value exists), the
parse input is independent of the `options` argument and the parsed value
falls back to `Value::Null`. -/
def getSassOptionsCode (_options : JValue) (root : String) : SassOptions :=
  sassOptionsFromJson .null root

/-! ### Emitted-resource filtering (crates/node/src/lib.rs) -/

/-- A final emitted artifact (spec §3): name, bytes, and the `emitted` flag. -/
structure Resource where
  name : String
  bytes : List Nat
  emitted : Bool
  deriving DecidableEq, Repr

/-- `JsCompiler::resources()`: iterate the resources map and expose
`(resource.name, resource.bytes)` for each resource whose `emitted` flag is
false. -/
def resources (rmap : List (String × Resource)) : List (String × List Nat) :=
  (rmap.filter fun kv => !kv.2.emitted).map fun kv => (kv.2.name, kv.2.bytes)

/-- `JsCompiler::resource(name)`: the bytes of the named resource, regardless
of its `emitted` flag. -/
def resource (rmap : List (String × Resource)) (name : String) :
    Option (List Nat) :=
  (assocLookup rmap name).map (·.bytes)

/-! ### Concrete sample values used by counterexamples -/

/-- A concrete cached module. -/
def sampleCachedModule : CachedModule :=
  { module := { id := "a.ts", moduleType := .script, content := "x",
                contentHash := "h", meta := "", sideEffects := false,
                external := false, immutable := false, sourceMap := none },
    deps := [] }

/-- A bucket map giving every bucket identical weight, size and unit count. -/
def constStats : String → BucketStats :=
  fun _ => { weight := 1, totalSize := 2, unitsCount := 3 }

/-- A bucket map ranking bucket `b` above every other bucket by weight. -/
def rankStats : String → BucketStats :=
  fun x =>
    if x = "b" then { weight := 2, totalSize := 0, unitsCount := 0 }
    else { weight := 1, totalSize := 0, unitsCount := 0 }

/-- A concrete parsed sass options value:
`{"quiet": true, "load_paths": ["lp"]}`. -/
def sampleSassJson : JValue :=
  .obj [("quiet", .jbool true), ("load_paths", .arr [.str "lp"])]

end Farm

namespace Farm

/-! ## Round-trip lemmas for the serializer -/

theorem decBool_enc (b : Bool) (r : List Nat) :
    decBool (encBool b ++ r) = some (b, r) := by
  cases b <;> rfl

theorem decStr_enc (s : String) (r : List Nat) :
    decStr (encStr s ++ r) = some (s, r) := by
  have hlen : (s.data.map Char.toNat).length = s.data.length := by
    simp
  simp only [encStr, List.cons_append, decStr]
  rw [if_pos]
  · have htake : ((s.data.map Char.toNat) ++ r).take s.data.length
        = s.data.map Char.toNat := by
      rw [← hlen]
      exact List.take_left _ _
    have hdrop : ((s.data.map Char.toNat) ++ r).drop s.data.length = r := by
      rw [← hlen]
      exact List.drop_left _ _
    rw [htake, hdrop]
    congr 1
    congr 1
    rw [List.map_map]
    have : (fun c => Char.ofNat (Char.toNat c)) = (id : Char → Char) := by
      funext c
      simp [Char.ofNat_toNat]
    simp only [Function.comp_def, this, List.map_id]
  · rw [List.length_append, hlen]
    exact Nat.le_add_right _ _

theorem decOptStr_enc (o : Option String) (r : List Nat) :
    decOptStr (encOptStr o ++ r) = some (o, r) := by
  cases o with
  | none => rfl
  | some s => simp [encOptStr, decOptStr, decStr_enc]

theorem decModuleType_enc (t : ModuleType) (r : List Nat) :
    decModuleType (encModuleType t ++ r) = some (t, r) := by
  cases t with
  | custom s => simp [encModuleType, decModuleType, decStr_enc]
  | _ => rfl

theorem decDepKind_enc (k : DepKind) (r : List Nat) :
    decDepKind (encDepKind k ++ r) = some (k, r) := by
  cases k with
  | entry s => simp [encDepKind, decDepKind, decStr_enc]
  | _ => rfl

theorem decModule_enc (m : Module) (r : List Nat) :
    decModule (encModule m ++ r) = some (m, r) := by
  simp [encModule, decModule, List.append_assoc, decStr_enc, decModuleType_enc,
    decBool_enc, decOptStr_enc]

theorem decDepEntry_enc (d : DepEntry) (r : List Nat) :
    decDepEntry (encDepEntry d ++ r) = some (d, r) := by
  simp [encDepEntry, decDepEntry, List.append_assoc, decStr_enc, decDepKind_enc]

theorem decListAux_enc (dec : List Nat → Option (α × List Nat))
    (f : α → List Nat) (xs : List α)
    (H : ∀ x ∈ xs, ∀ r, dec (f x ++ r) = some (x, r)) (r : List Nat) :
    decListAux dec xs.length ((xs.map f).flatten ++ r) = some (xs, r) := by
  induction xs with
  | nil => rfl
  | cons x xs ih =>
    simp only [List.length_cons, List.map_cons, List.flatten_cons, decListAux,
      List.append_assoc]
    rw [H x (List.mem_cons_self x xs)]
    simp only [Option.some_bind]
    rw [ih (fun y hy s => H y (List.mem_cons_of_mem x hy) s)]
    rfl

theorem decList_enc (dec : List Nat → Option (α × List Nat))
    (f : α → List Nat) (xs : List α)
    (H : ∀ x ∈ xs, ∀ r, dec (f x ++ r) = some (x, r)) (r : List Nat) :
    decList dec (encList f xs ++ r) = some (xs, r) := by
  simp only [encList, List.cons_append, decList]
  exact decListAux_enc dec f xs H r

theorem decCachedModule_enc (c : CachedModule) (r : List Nat) :
    decCachedModule (serialize c ++ r) = some (c, r) := by
  simp only [serialize, decCachedModule, List.append_assoc, decModule_enc,
    Option.some_bind]
  rw [decList_enc decDepEntry encDepEntry c.deps
    (fun d _ s => decDepEntry_enc d s) r]
  rfl

theorem deserialize_serialize (c : CachedModule) :
    deserialize (serialize c) = some c := by
  have h := decCachedModule_enc c []
  rw [List.append_nil] at h
  simp [deserialize, h]

end Farm

namespace Farm

/-! ## Claim theorems -/

/-- C1: module cache round trip — for every key `k` and cached module `v`,
after `set_module_cache(k, v)`, `has_module_cache(k)` returns true and
`get_module_cache(k)` returns a `CachedModule` structurally equal to `v`. -/
theorem module_cache_roundtrip (mgr : ModuleCacheManager) (fs : Fs)
    (k : String) (v : CachedModule) :
    hasModuleCache mgr (setModuleCache mgr fs k v) k = true ∧
    getModuleCache mgr (setModuleCache mgr fs k v) k = .value v := by
  constructor
  · simp [hasModuleCache, setModuleCache, fsWrite]
  · simp [getModuleCache, setModuleCache, fsWrite, deserialize_serialize]

/-- C2: module cache filesystem layout — with the `(cache_dir, namespace,
mode)` constructor mandated by the spec, the cache entry for key `k` lives at
`<cache_dir>/<namespace>/<mode>/modules/<k>`: that is the path
`has_module_cache` probes and `set_module_cache` writes. -/
theorem module_cache_layout (cd ns : String) (mode : Mode) (k : String)
    (fs : Fs) (v : CachedModule) :
    cacheEntryPath (CacheManager.new cd ns mode).moduleCache k =
      cd ++ "/" ++ ns ++ "/" ++ Mode.str mode ++ "/modules" ++ "/" ++ k ∧
    setModuleCache (CacheManager.new cd ns mode).moduleCache fs k v =
      fsWrite fs
        (cd ++ "/" ++ ns ++ "/" ++ Mode.str mode ++ "/modules" ++ "/" ++ k)
        (serialize v) ∧
    hasModuleCache (CacheManager.new cd ns mode).moduleCache fs k =
      (fs (cd ++ "/" ++ ns ++ "/" ++ Mode.str mode ++ "/modules" ++ "/" ++ k)
        ).isSome :=
  ⟨rfl, rfl, rfl⟩

/-- C3: the claim (a failed filesystem read in `get_module_cache` is
non-fatal and the entry is treated as absent; neither cache operation panics
on I/O error) matches the spec, but the source calls
`std::fs::read(path).unwrap()`: evaluated at the failing input — key
`"deadbeef"` on an empty filesystem, any cache root — `get_module_cache`
panics instead of treating the entry as absent. -/
theorem get_module_cache_panics_on_missing_entry :
    getModuleCache (ModuleCacheManager.newFromRoot "/proj") fsEmpty "deadbeef"
      = .panicked :=
  rfl

/-- C4: resource pot base-name derivation — the configured entry name when
the group id is in the entries map; otherwise the group id's final filename
without extension when it is not yet used; and on collision parent path
segments are prepended (joined with `_`) one at a time until the name is
unused, so in scenario S4 `src/a.html` yields `a`, `test/a.html` then yields
`test_a`, and `x/test/a` then yields `x_test_a`. -/
theorem resource_pot_name_spec :
    (∀ entries used gid name, assocLookup entries gid = some name →
      generateResourcePotName entries used gid = name) ∧
    (∀ entries used gid, assocLookup entries gid = none →
      ¬ tryGetFilename (splitOnChar '/' gid) ∈ used →
      generateResourcePotName entries used gid
        = tryGetFilename (splitOnChar '/' gid)) ∧
    generateResourcePotName [] [] "src/a.html" = "a" ∧
    generateResourcePotName [] ["a"] "test/a.html" = "test_a" ∧
    generateResourcePotName [] ["a", "test_a"] "x/test/a" = "x_test_a" := by
  refine ⟨?_, ?_, by decide, by decide, by decide⟩
  · intro entries used gid name h
    simp [generateResourcePotName, h]
  · intro entries used gid h hnot
    simp [generateResourcePotName, h, hnot]

/-- C4 witness: the entry branch and the fresh-filename branch at concrete
inputs. -/
theorem resource_pot_name_spec_witness :
    generateResourcePotName [("src/a.html", "main")] [] "src/a.html" = "main"
      ∧ generateResourcePotName [] [] "foo/bar.ts" = "bar" :=
  ⟨resource_pot_name_spec.1 [("src/a.html", "main")] [] "src/a.html" "main"
      (by decide),
    resource_pot_name_spec.2.1 [] [] "foo/bar.ts" (by decide) (by decide)⟩

/-- C6 counterexample: at cache root `/proj` and key `h`, the operation trace
of `set_module_cache` is a single direct `std::fs::write` of the serialized
bytes to the final entry path — no write to a temporary file, no rename. -/
theorem set_module_cache_not_atomic :
    setModuleCacheOps (ModuleCacheManager.newFromRoot "/proj") "h"
        sampleCachedModule =
      [FsOp.write "/proj/node_modules/.farm/cache/h"
        (serialize sampleCachedModule)] ∧
    (setModuleCacheOps (ModuleCacheManager.newFromRoot "/proj") "h"
        sampleCachedModule).filter FsOp.isRename = [] :=
  ⟨rfl, rfl⟩

/-- C6 amended: for every key and value, `set_module_cache` performs exactly
one filesystem operation — a direct write of the serialized bytes to the
final cache path. There is no temporary file and no rename, so the write is
not atomic. -/
theorem set_module_cache_single_direct_write (mgr : ModuleCacheManager)
    (k : String) (v : CachedModule) :
    setModuleCacheOps mgr k v =
      [FsOp.write (cacheEntryPath mgr k) (serialize v)] :=
  rfl

/-- C7: the claim says `FsWatcher::watch` subscribes at the longest common
path prefix of the requested paths, as does the source's own comment
("find the longest common prefix"), but the loop keeps every component index
at which all paths agree — including indices past the first mismatch.
Evaluated at the failing input `["/a/b/c", "/a/x/c"]` (component lists
below): the code computes `a/c`, while the longest common prefix is `a`. -/
theorem watch_path_not_longest_common_head :
    watchRootComps [["a", "b", "c"], ["a", "x", "c"]] = some ["a", "c"] ∧
    longestCommonHead [["a", "b", "c"], ["a", "x", "c"]] = some ["a"] ∧
    (["a", "c"] : List String) ≠ ["a"] := by
  decide

/-- C8: the claim (option parsing is a pure function of `(options, root)`
reading the booleans and load paths from the `options` argument) matches the
spec's mandate, but `get_sass_options` parses `self.sass_options` — inside a
constructor that has no `self` — so its result ignores the `options`
argument. At options `{"quiet": true, "load_paths": ["lp"]}` and root
`/proj`: the free function of the spec yields `quiet := true` and load paths
`["/proj", "lp"]`, while the code's behavior keeps the defaults and load
paths `["/proj"]`. -/
theorem sass_options_ignore_options_argument :
    getSassOptionsSpec sampleSassJson "/proj"
      = { quiet := true, allowsCharset := true, unicodeErrorMessages := true,
          loadPaths := ["/proj", "lp"] } ∧
    getSassOptionsCode sampleSassJson "/proj"
      = { quiet := false, allowsCharset := true, unicodeErrorMessages := true,
          loadPaths := ["/proj"] } ∧
    getSassOptionsCode sampleSassJson "/proj"
      ≠ getSassOptionsSpec sampleSassJson "/proj" := by
  refine ⟨rfl, rfl, ?_⟩
  decide

/-- C9: `JsCompiler::resources()` returns exactly the `(name, bytes)` pairs
of the resources whose `emitted` flag is false, and `JsCompiler::resource`
returns the named resource's bytes regardless of its `emitted` flag. -/
theorem resources_surface_filtering :
    (∀ rmap n b, (n, b) ∈ resources rmap ↔
      ∃ p ∈ rmap, (p : String × Resource).2.emitted = false ∧
        p.2.name = n ∧ p.2.bytes = b) ∧
    (∀ rmap n r, assocLookup rmap n = some r →
      resource rmap n = some r.bytes) := by
  constructor
  · intro rmap n b
    simp only [resources, List.mem_map, List.mem_filter,
      Bool.not_eq_eq_eq_not, Bool.not_true]
    constructor
    · rintro ⟨p, ⟨hp, hem⟩, heq⟩
      exact ⟨p, hp, hem, congrArg Prod.fst heq, congrArg Prod.snd heq⟩
    · rintro ⟨p, hp, hem, hn, hb⟩
      exact ⟨p, ⟨hp, hem⟩, by rw [hn, hb]⟩
  · intro rmap n r h
    simp [resource, h]

/-- C9 witness: a non-emitted resource is listed by `resources()`, and
`resource(name)` returns the bytes of a resource even when it is emitted. -/
theorem resources_surface_filtering_witness :
    ("m", [2]) ∈ resources
        [("m", { name := "m", bytes := [2], emitted := false })] ∧
    resource [("n", { name := "n", bytes := [1], emitted := true })] "n"
      = some [1] :=
  ⟨(resources_surface_filtering.1
        [("m", { name := "m", bytes := [2], emitted := false })] "m" [2]).mpr
      ⟨("m", { name := "m", bytes := [2], emitted := false }),
        by decide, by decide, rfl, rfl⟩,
    resources_surface_filtering.2
      [("n", { name := "n", bytes := [1], emitted := true })] "n"
      { name := "n", bytes := [1], emitted := true } (by decide)⟩

end Farm


namespace Farm

/-! ## C5: bucket processing order -/

theorem tripleLt_irrefl (k : Nat × Nat × Nat) : ¬ tripleLt k k := by
  rcases k with ⟨a, b, c⟩
  simp only [tripleLt]
  omega

theorem tripleLt_trans {k1 k2 k3 : Nat × Nat × Nat} :
    tripleLt k1 k2 → tripleLt k2 k3 → tripleLt k1 k3 := by
  rcases k1 with ⟨a1, b1, c1⟩
  rcases k2 with ⟨a2, b2, c2⟩
  rcases k3 with ⟨a3, b3, c3⟩
  simp only [tripleLt]
  omega

theorem tripleLt_of_lt_of_nlt {k1 k2 k3 : Nat × Nat × Nat} :
    tripleLt k1 k2 → ¬ tripleLt k3 k2 → tripleLt k1 k3 := by
  rcases k1 with ⟨a1, b1, c1⟩
  rcases k2 with ⟨a2, b2, c2⟩
  rcases k3 with ⟨a3, b3, c3⟩
  simp only [tripleLt]
  omega

theorem tripleLt_of_nlt_of_lt {k1 k2 k3 : Nat × Nat × Nat} :
    ¬ tripleLt k2 k1 → tripleLt k2 k3 → tripleLt k1 k3 := by
  rcases k1 with ⟨a1, b1, c1⟩
  rcases k2 with ⟨a2, b2, c2⟩
  rcases k3 with ⟨a3, b3, c3⟩
  simp only [tripleLt]
  omega

theorem bucketLt_irrefl (stats : String → BucketStats) (a : String) :
    ¬ bucketLt stats a a :=
  tripleLt_irrefl _

theorem bucketLt_trans {stats : String → BucketStats} {a b c : String} :
    bucketLt stats a b → bucketLt stats b c → bucketLt stats a c :=
  fun h1 h2 => tripleLt_trans h1 h2

theorem bucketLt_of_lt_of_nlt {stats : String → BucketStats}
    {a b c : String} :
    bucketLt stats a b → ¬ bucketLt stats c b → bucketLt stats a c :=
  fun h1 h2 => tripleLt_of_lt_of_nlt h1 h2

theorem bucketLt_of_nlt_of_lt {stats : String → BucketStats}
    {a b c : String} :
    ¬ bucketLt stats b a → bucketLt stats b c → bucketLt stats a c :=
  fun h1 h2 => tripleLt_of_nlt_of_lt h1 h2

theorem betterBucket_eq (stats : String → BucketStats) (a b : String) :
    betterBucket stats a b = if bucketLt stats a b then b else a := by
  have hk : bucketLt stats a b ↔
      ((stats a).weight < (stats b).weight ∨
        ((stats a).weight = (stats b).weight ∧
          ((stats a).totalSize * (stats a).unitsCount <
              (stats b).totalSize * (stats b).unitsCount ∨
            ((stats a).totalSize * (stats a).unitsCount =
                (stats b).totalSize * (stats b).unitsCount ∧
              (stats a).unitsCount < (stats b).unitsCount)))) :=
    Iff.rfl
  by_cases h : bucketLt stats a b
  · rw [if_pos h]
    rw [hk] at h
    unfold betterBucket
    generalize (stats a).totalSize * (stats a).unitsCount = pa at h ⊢
    generalize (stats b).totalSize * (stats b).unitsCount = pb at h ⊢
    split_ifs <;> first | rfl | (exfalso; omega)
  · rw [if_neg h]
    rw [hk] at h
    unfold betterBucket
    generalize (stats a).totalSize * (stats a).unitsCount = pa at h ⊢
    generalize (stats b).totalSize * (stats b).unitsCount = pb at h ⊢
    split_ifs <;> first | rfl | (exfalso; omega)

theorem foldl_better_mem (stats : String → BucketStats) :
    ∀ (xs : List String) (c : String),
      xs.foldl (betterBucket stats) c ∈ c :: xs := by
  intro xs
  induction xs with
  | nil =>
    intro c
    simp
  | cons x xs ih =>
    intro c
    rw [List.foldl_cons]
    by_cases hlt : bucketLt stats c x
    · rw [betterBucket_eq, if_pos hlt]
      have h := ih x
      simp only [List.mem_cons] at h ⊢
      tauto
    · rw [betterBucket_eq, if_neg hlt]
      have h := ih c
      simp only [List.mem_cons] at h ⊢
      tauto

theorem foldl_better_max (stats : String → BucketStats) :
    ∀ (xs : List String) (c z : String), z ∈ c :: xs →
      ¬ bucketLt stats (xs.foldl (betterBucket stats) c) z := by
  intro xs
  induction xs with
  | nil =>
    intro c z hz
    simp only [List.mem_singleton] at hz
    rw [hz]
    exact bucketLt_irrefl stats c
  | cons x xs ih =>
    intro c z hz
    rw [List.foldl_cons]
    by_cases hlt : bucketLt stats c x
    · rw [betterBucket_eq, if_pos hlt]
      rcases List.mem_cons.mp hz with h1 | h1
      · rw [h1]
        intro hrc
        exact ih x x (List.mem_cons_self x xs) (bucketLt_trans hrc hlt)
      · exact ih x z h1
    · rw [betterBucket_eq, if_neg hlt]
      rcases List.mem_cons.mp hz with h1 | h1
      · rw [h1]
        exact ih c c (List.mem_cons_self c xs)
      · rcases List.mem_cons.mp h1 with h2 | h2
        · rw [h2]
          intro hrx
          exact ih c c (List.mem_cons_self c xs)
            (bucketLt_of_lt_of_nlt hrx hlt)
        · exact ih c z (List.mem_cons_of_mem c h2)

theorem foldl_better_first (stats : String → BucketStats) :
    ∀ (xs : List String) (c : String),
      ∃ l1 l2, c :: xs = l1 ++ (xs.foldl (betterBucket stats) c) :: l2 ∧
        ∀ x ∈ l1, ∃ z ∈ c :: xs, bucketLt stats x z := by
  intro xs
  induction xs with
  | nil =>
    intro c
    exact ⟨[], [], rfl, by simp⟩
  | cons x xs ih =>
    intro c
    rw [List.foldl_cons]
    by_cases hlt : bucketLt stats c x
    · rw [betterBucket_eq, if_pos hlt]
      obtain ⟨l1, l2, hdec, hl1⟩ := ih x
      refine ⟨c :: l1, l2, ?_, ?_⟩
      · rw [List.cons_append, ← hdec]
      · intro y hy
        rcases List.mem_cons.mp hy with h1 | h1
        · rw [h1]
          exact ⟨x, List.mem_cons_of_mem c (List.mem_cons_self x xs), hlt⟩
        · obtain ⟨z, hz, hz2⟩ := hl1 y h1
          exact ⟨z, List.mem_cons_of_mem c hz, hz2⟩
    · rw [betterBucket_eq, if_neg hlt]
      obtain ⟨l1, l2, hdec, hl1⟩ := ih c
      cases l1 with
      | nil =>
        rw [List.nil_append] at hdec
        injection hdec with h1 h2
        refine ⟨[], x :: xs, ?_, by simp⟩
        rw [List.nil_append, ← h1]
      | cons c1 l1' =>
        rw [List.cons_append] at hdec
        injection hdec with h1 h2
        subst h1
        have hcnm : ∃ z ∈ c :: xs, bucketLt stats c z :=
          hl1 c (List.mem_cons_self c l1')
        refine ⟨c :: x :: l1', l2, ?_, ?_⟩
        · rw [List.cons_append, List.cons_append, ← h2]
        · intro y hy
          rcases List.mem_cons.mp hy with h3 | h3
          · obtain ⟨z, hz, hz2⟩ := hcnm
            rw [h3]
            rcases List.mem_cons.mp hz with h4 | h4
            · exact ⟨z, by rw [h4]; exact List.mem_cons_self c (x :: xs), hz2⟩
            · exact ⟨z, List.mem_cons_of_mem c (List.mem_cons_of_mem x h4),
                hz2⟩
          · rcases List.mem_cons.mp h3 with h4 | h4
            · obtain ⟨z, hz, hz2⟩ := hcnm
              have hxz : bucketLt stats x z := bucketLt_of_nlt_of_lt hlt hz2
              rw [h4]
              rcases List.mem_cons.mp hz with h5 | h5
              · exact ⟨z, by rw [h5]; exact List.mem_cons_self c (x :: xs),
                  hxz⟩
              · exact ⟨z, List.mem_cons_of_mem c (List.mem_cons_of_mem x h5),
                  hxz⟩
            · obtain ⟨z, hz, hz2⟩ := hl1 y (List.mem_cons_of_mem c h4)
              rcases List.mem_cons.mp hz with h5 | h5
              · exact ⟨z, by rw [h5]; exact List.mem_cons_self c (x :: xs),
                  hz2⟩
              · exact ⟨z, List.mem_cons_of_mem c (List.mem_cons_of_mem x h5),
                  hz2⟩

/-- C5 counterexample: with buckets `a` and `b` of identical weight,
total size and resource-unit count, `find_best_process_bucket` returns
whichever id the set's iteration happens to visit first — `b` for iteration
order `[b, a]` but `a` for `[a, b]` — so the residual tie is not broken by
bucket id, and the result is not the maximum under any id-tiebroken total
order on the bucket set. -/
theorem find_best_tie_not_broken_by_id :
    findBestProcessBucket constStats ["b", "a"] = some "b" ∧
    findBestProcessBucket constStats ["a", "b"] = some "a" ∧
    ("a" : String) ≠ "b" := by
  decide

/-- C5 amended: `find_best_process_bucket` returns the first bucket in the
set's iteration order among those maximal under the total preorder (higher
weight, then greater total_size × resource_units_count, then greater
resource_units_count); residual ties are broken by iteration order (the
first-encountered bucket wins), not by bucket id. -/
theorem find_best_returns_first_maximum (stats : String → BucketStats)
    (ids : List String) (y : String)
    (h : findBestProcessBucket stats ids = some y) :
    y ∈ ids ∧ (∀ z ∈ ids, ¬ bucketLt stats y z) ∧
    ∃ l1 l2, ids = l1 ++ y :: l2 ∧
      ∀ x ∈ l1, ∃ z ∈ ids, bucketLt stats x z := by
  cases ids with
  | nil => cases h
  | cons i is =>
    have hy : is.foldl (betterBucket stats) i = y := by
      simpa [findBestProcessBucket] using h
    subst hy
    exact ⟨foldl_better_mem stats is i,
      fun z hz => foldl_better_max stats is i z hz,
      foldl_better_first stats is i⟩

/-- C5 witness: with `b` ranked above `a` by weight, the amended theorem
applied to the iteration order `[a, b]` gives the unique maximum `b`. -/
theorem find_best_returns_first_maximum_witness :
    ("b" : String) ∈ ["a", "b"] ∧
    (∀ z ∈ ["a", "b"], ¬ bucketLt rankStats "b" z) ∧
    ∃ l1 l2, (["a", "b"] : List String) = l1 ++ "b" :: l2 ∧
      ∀ x ∈ l1, ∃ z ∈ ["a", "b"], bucketLt rankStats x z :=
  find_best_returns_first_maximum rankStats ["a", "b"] "b" (by decide)

end Farm

namespace Farm

/-! ## C10: ModuleBucket size accumulators -/

theorem sizeLookup_sizeUpdate_self :
    ∀ (l : List (ModuleType × Nat)) (t : ModuleType) (v : Nat),
      (sizeLookup l t).isSome →
      sizeLookup (sizeUpdate l t v) t = some v := by
  intro l
  induction l with
  | nil =>
    intro t v h
    simp [sizeLookup] at h
  | cons e l ih =>
    intro t v h
    rcases e with ⟨te, ne⟩
    by_cases ht : t = te
    · simp [sizeUpdate, sizeLookup, ht]
    · simp only [sizeUpdate, sizeLookup, if_neg ht] at h ⊢
      exact ih t v h

theorem sizeLookup_sizeUpdate_ne :
    ∀ (l : List (ModuleType × Nat)) (t t' : ModuleType) (v : Nat), t' ≠ t →
      sizeLookup (sizeUpdate l t v) t' = sizeLookup l t' := by
  intro l
  induction l with
  | nil =>
    intro t t' v _
    rfl
  | cons e l ih =>
    intro t t' v h
    rcases e with ⟨te, ne⟩
    by_cases ht : t = te
    · subst ht
      simp [sizeUpdate, sizeLookup, h]
    · by_cases ht' : t' = te
      · simp [sizeUpdate, sizeLookup, if_neg ht, ht']
      · simp only [sizeUpdate, sizeLookup, if_neg ht, if_neg ht']
        exact ih t t' v h

theorem sizeLookup_append_self :
    ∀ (l : List (ModuleType × Nat)) (t : ModuleType) (s : Nat),
      sizeLookup l t = none →
      sizeLookup (l ++ [(t, s)]) t = some s := by
  intro l
  induction l with
  | nil =>
    intro t s _
    simp [sizeLookup]
  | cons e l ih =>
    intro t s h
    rcases e with ⟨te, ne⟩
    by_cases ht : t = te
    · simp [sizeLookup, ht] at h
    · simp only [List.cons_append, sizeLookup, if_neg ht] at h ⊢
      exact ih t s h

theorem sizeLookup_append_ne :
    ∀ (l : List (ModuleType × Nat)) (t t' : ModuleType) (s : Nat), t' ≠ t →
      sizeLookup (l ++ [(t, s)]) t' = sizeLookup l t' := by
  intro l
  induction l with
  | nil =>
    intro t t' s h
    simp [sizeLookup, h]
  | cons e l ih =>
    intro t t' s h
    rcases e with ⟨te, ne⟩
    by_cases ht' : t' = te
    · simp [sizeLookup, ht']
    · simp only [List.cons_append, sizeLookup, if_neg ht']
      exact ih t t' s h

theorem addSize_modules (b : ModuleBucket) (t : ModuleType) (s : Nat) :
    (b.addSize t s).modules = b.modules := by
  unfold ModuleBucket.addSize
  cases sizeLookup b.size t <;> rfl

theorem sizeVal_addSize_self (b : ModuleBucket) (t : ModuleType) (s : Nat) :
    sizeVal (b.addSize t s) t = sizeVal b t + s := by
  unfold ModuleBucket.addSize sizeVal
  cases h : sizeLookup b.size t with
  | some v =>
    simp only
    rw [sizeLookup_sizeUpdate_self b.size t (v + s) (by rw [h]; rfl)]
    rfl
  | none =>
    simp only
    rw [sizeLookup_append_self b.size t s h]
    simp

theorem sizeVal_addSize_ne (b : ModuleBucket) (t t' : ModuleType) (s : Nat)
    (h : t' ≠ t) : sizeVal (b.addSize t s) t' = sizeVal b t' := by
  unfold ModuleBucket.addSize sizeVal
  cases hl : sizeLookup b.size t with
  | some v =>
    simp only
    rw [sizeLookup_sizeUpdate_ne b.size t t' (v + s) h]
  | none =>
    simp only
    rw [sizeLookup_append_ne b.size t t' s h]

theorem subSize_some (b : ModuleBucket) (t : ModuleType) (s : Nat)
    (h : s ≤ sizeVal b t) :
    ∃ b1, b.subSize t s = some b1 ∧ b1.modules = b.modules ∧
      sizeVal b1 t = sizeVal b t - s ∧
      ∀ t', t' ≠ t → sizeVal b1 t' = sizeVal b t' := by
  unfold ModuleBucket.subSize
  cases hl : sizeLookup b.size t with
  | none =>
    have hz : sizeVal b t = 0 := by
      unfold sizeVal
      rw [hl]
      rfl
    refine ⟨b, rfl, rfl, ?_, fun _ _ => rfl⟩
    omega
  | some v =>
    have hv : sizeVal b t = v := by
      unfold sizeVal
      rw [hl]
      rfl
    rw [hv] at h
    dsimp only
    rw [if_pos h]
    refine ⟨_, rfl, rfl, ?_, ?_⟩
    · unfold sizeVal
      simp only
      rw [sizeLookup_sizeUpdate_self b.size t (v - s) (by rw [hl]; rfl)]
      rw [hl]
      rfl
    · intro t' ht'
      unfold sizeVal
      simp only
      rw [sizeLookup_sizeUpdate_ne b.size t t' (v - s) ht']

theorem le_typeSum_of_mem :
    ∀ (g : Ghost) (m : String) (t : ModuleType) (s : Nat),
      (m, t, s) ∈ g → s ≤ typeSum g t := by
  intro g
  induction g with
  | nil =>
    intro m t s h
    cases h
  | cons e g ih =>
    intro m t s h
    rcases List.mem_cons.mp h with h1 | h1
    · rw [← h1]
      simp only [typeSum, if_pos rfl]
      exact Nat.le_add_right s _
    · calc s ≤ typeSum g t := ih m t s h1
        _ ≤ (if e.2.1 = t then e.2.2 else 0) + typeSum g t :=
          Nat.le_add_left _ _

theorem ghostRemove_of_not_mem :
    ∀ (g : Ghost) (m : String), ¬ m ∈ g.map (·.1) → ghostRemove g m = g := by
  intro g
  induction g with
  | nil =>
    intro m _
    rfl
  | cons e g ih =>
    intro m h
    simp only [List.map_cons, List.mem_cons] at h
    push_neg at h
    obtain ⟨h1, h2⟩ := h
    have he : e.1 ≠ m := fun hh => h1 hh.symm
    simp only [ghostRemove, if_neg he]
    rw [ih m h2]

theorem mem_keys_ghostRemove :
    ∀ (g : Ghost) (m x : String),
      x ∈ (ghostRemove g m).map (·.1) ↔ x ∈ g.map (·.1) ∧ x ≠ m := by
  intro g
  induction g with
  | nil =>
    intro m x
    simp [ghostRemove]
  | cons e g ih =>
    intro m x
    by_cases he : e.1 = m
    · simp only [ghostRemove, if_pos he, List.map_cons, List.mem_cons]
      rw [ih]
      constructor
      · rintro ⟨h1, h2⟩
        exact ⟨Or.inr h1, h2⟩
      · rintro ⟨h1 | h1, h2⟩
        · exact absurd (h1.trans he) h2
        · exact ⟨h1, h2⟩
    · simp only [ghostRemove, if_neg he, List.map_cons, List.mem_cons]
      rw [ih]
      constructor
      · rintro (h1 | ⟨h1, h2⟩)
        · exact ⟨Or.inl h1, fun hxm => he (by rw [← h1]; exact hxm)⟩
        · exact ⟨Or.inr h1, h2⟩
      · rintro ⟨h1 | h1, h2⟩
        · exact Or.inl h1
        · exact Or.inr ⟨h1, h2⟩

theorem ghostRemove_sublist :
    ∀ (g : Ghost) (m : String), List.Sublist (ghostRemove g m) g := by
  intro g
  induction g with
  | nil =>
    intro m
    simp [ghostRemove]
  | cons e g ih =>
    intro m
    simp only [ghostRemove]
    split_ifs with he
    · exact (ih m).cons e
    · exact (ih m).cons₂ e

theorem keys_ghostRemove_nodup (g : Ghost) (m : String)
    (h : (g.map (·.1)).Nodup) : ((ghostRemove g m).map (·.1)).Nodup :=
  List.Nodup.sublist (List.Sublist.map _ (ghostRemove_sublist g m)) h

theorem typeSum_cons (m : String) (t0 : ModuleType) (s0 : Nat) (g : Ghost)
    (t : ModuleType) :
    typeSum ((m, t0, s0) :: g) t = (if t0 = t then s0 else 0) + typeSum g t :=
  rfl

theorem typeSum_ghostRemove :
    ∀ (g : Ghost) (m : String) (t : ModuleType) (s : Nat),
      (g.map (·.1)).Nodup → (m, t, s) ∈ g → ∀ t',
      typeSum g t' = typeSum (ghostRemove g m) t' +
        (if t = t' then s else 0) := by
  intro g
  induction g with
  | nil =>
    intro m t s _ hm
    cases hm
  | cons e g ih =>
    intro m t s hnd hm t'
    have hnd1 : ¬ e.1 ∈ g.map (·.1) ∧ (g.map (·.1)).Nodup := by
      simp only [List.map_cons] at hnd
      exact List.nodup_cons.mp hnd
    rcases List.mem_cons.mp hm with h1 | h1
    · have he1 : e.1 = m := by rw [← h1]
      have hrem : ghostRemove (e :: g) m = g := by
        simp only [ghostRemove, if_pos he1]
        exact ghostRemove_of_not_mem g m (he1 ▸ hnd1.1)
      rw [hrem, ← h1, typeSum_cons]
      by_cases htt : t = t'
      · rw [if_pos htt]
        omega
      · rw [if_neg htt]
        omega
    · have hkey : m ∈ g.map (·.1) :=
        List.mem_map.mpr ⟨(m, t, s), h1, rfl⟩
      have he1 : e.1 ≠ m := fun hh => hnd1.1 (hh ▸ hkey)
      simp only [ghostRemove, if_neg he1, typeSum]
      rw [ih m t s hnd1.2 h1 t']
      omega

theorem bucketInv_add (b : ModuleBucket) (g : Ghost) (m : String)
    (t : ModuleType) (s : Nat) (hinv : BucketInv b g)
    (hm : ¬ m ∈ g.map (·.1)) :
    BucketInv (b.addModule m t s) ((m, t, s) :: g) := by
  obtain ⟨hmem, hsize, hnd, hgnd⟩ := hinv
  have hmb : ¬ m ∈ b.modules := fun hh => hm ((hmem m).mp hh)
  have hmods : (b.addModule m t s).modules = m :: b.modules := by
    unfold ModuleBucket.addModule
    rw [addSize_modules]
    simp [listInsert, hmb]
  refine ⟨?_, ?_, ?_, ?_⟩
  · intro x
    rw [hmods]
    simp only [List.map_cons, List.mem_cons]
    rw [hmem x]
  · intro t'
    show sizeVal (ModuleBucket.addSize _ t s) t' = _
    rw [typeSum_cons]
    by_cases ht : t = t'
    · subst ht
      rw [sizeVal_addSize_self, if_pos rfl]
      have hb2 : sizeVal { b with modules := listInsert b.modules m } t
          = sizeVal b t := rfl
      rw [hb2, hsize t]
      omega
    · rw [sizeVal_addSize_ne _ _ _ _ (fun hh => ht hh.symm), if_neg ht]
      have hb2 : sizeVal { b with modules := listInsert b.modules m } t'
          = sizeVal b t' := rfl
      rw [hb2, hsize t']
      omega
  · rw [hmods]
    exact List.nodup_cons.mpr ⟨hmb, hnd⟩
  · simp only [List.map_cons]
    exact List.nodup_cons.mpr ⟨hm, hgnd⟩

theorem bucketInv_remove (b : ModuleBucket) (g : Ghost) (m : String)
    (t : ModuleType) (s : Nat) (hinv : BucketInv b g)
    (hm : (m, t, s) ∈ g) :
    ∃ b2, applyBucketOp b (.remove m t s) = some b2 ∧
      BucketInv b2 (ghostRemove g m) := by
  obtain ⟨hmem, hsize, hnd, hgnd⟩ := hinv
  have hle : s ≤ sizeVal b t := by
    rw [hsize t]
    exact le_typeSum_of_mem g m t s hm
  obtain ⟨b1, hsub, hb1mods, hb1t, hb1ne⟩ := subSize_some b t s hle
  refine ⟨{ b1 with modules := b1.modules.erase m }, ?_, ?_, ?_, ?_, ?_⟩
  · simp [applyBucketOp, ModuleBucket.removeModule, hsub]
  · intro x
    show x ∈ b1.modules.erase m ↔ _
    rw [hb1mods]
    rw [List.Nodup.mem_erase_iff hnd]
    rw [mem_keys_ghostRemove]
    rw [hmem x]
    constructor
    · rintro ⟨h1, h2⟩
      exact ⟨h2, h1⟩
    · rintro ⟨h1, h2⟩
      exact ⟨h2, h1⟩
  · intro t'
    have hb2 : sizeVal { b1 with modules := b1.modules.erase m } t'
        = sizeVal b1 t' := rfl
    rw [hb2]
    have hts := typeSum_ghostRemove g m t s hgnd hm t'
    by_cases ht : t = t'
    · subst ht
      rw [hb1t, hsize t]
      rw [if_pos rfl] at hts
      omega
    · rw [hb1ne t' (fun hh => ht hh.symm), hsize t']
      rw [if_neg ht] at hts
      omega
  · show (b1.modules.erase m).Nodup
    rw [hb1mods]
    exact List.Nodup.erase m hnd
  · exact keys_ghostRemove_nodup g m hgnd

theorem runBucketOps_inv :
    ∀ (ops : List BucketOp) (b : ModuleBucket) (g : Ghost),
      BucketInv b g → matchedTrace g ops →
      ∃ b', runBucketOps b ops = some b' ∧
        BucketInv b' (ghostRun g ops) := by
  intro ops
  induction ops with
  | nil =>
    intro b g hinv _
    exact ⟨b, rfl, hinv⟩
  | cons op ops ih =>
    intro b g hinv hmt
    cases op with
    | add m t s =>
      simp only [matchedTrace] at hmt
      obtain ⟨hm, hmt'⟩ := hmt
      obtain ⟨b', hrun, hinvf⟩ :=
        ih (b.addModule m t s) ((m, t, s) :: g)
          (bucketInv_add b g m t s hinv hm) hmt'
      refine ⟨b', ?_, hinvf⟩
      simp only [runBucketOps, applyBucketOp]
      exact hrun
    | remove m t s =>
      simp only [matchedTrace] at hmt
      obtain ⟨hm, hmt'⟩ := hmt
      obtain ⟨b1, happ, hinv1⟩ := bucketInv_remove b g m t s hinv hm
      obtain ⟨b', hrun, hinvf⟩ := ih b1 (ghostRemove g m) hinv1 hmt'
      refine ⟨b', ?_, hinvf⟩
      simp only [runBucketOps, happ]
      exact hrun

/-- C10: starting from an empty bucket, along every sequence of `add_module`
and `remove_module` calls in which each `remove_module(m, t, s)` is preceded
by a matching `add_module(m, t, s)` not yet removed, no call panics — in
particular the unconditional subtraction inside `sub_size` never underflows —
every per-type size accumulator equals the sum of the sizes of the
currently-present modules of that type, and the module set is exactly the
outstanding adds. The precondition is required: an unmatched
`remove_module(c, script, 2)` against an accumulator holding 1 underflows
(the run panics). -/
theorem module_bucket_accumulator_safety (id : String) (w : Nat)
    (ops : List BucketOp) (h : matchedTrace [] ops) :
    (∃ b', runBucketOps (ModuleBucket.new id [] w) ops = some b' ∧
      (∀ t, sizeVal b' t = typeSum (ghostRun [] ops) t) ∧
      (∀ x, x ∈ b'.modules ↔ x ∈ (ghostRun [] ops).map (·.1))) ∧
    runBucketOps (ModuleBucket.new "b0" [] 0)
      [BucketOp.add "a" ModuleType.script 1,
       BucketOp.remove "c" ModuleType.script 2] = none := by
  refine ⟨?_, by decide⟩
  have hinv : BucketInv (ModuleBucket.new id [] w) [] := by
    refine ⟨?_, ?_, ?_, ?_⟩
    · intro x
      simp [ModuleBucket.new]
    · intro t
      simp [ModuleBucket.new, sizeVal, sizeLookup, typeSum]
    · simp [ModuleBucket.new]
    · simp
  obtain ⟨b', hrun, hmem, hsz, _, _⟩ := runBucketOps_inv ops
    (ModuleBucket.new id [] w) [] hinv h
  exact ⟨b', hrun, hsz, hmem⟩

/-- C10 witness: the balanced sequence add(m, script, 5); remove(m, script, 5)
runs without panicking, ends with an empty accumulator for `script` and an
empty module set; and the unmatched remove underflows. -/
theorem module_bucket_accumulator_safety_witness :
    (∃ b', runBucketOps (ModuleBucket.new "b" [] 0)
        [BucketOp.add "m" ModuleType.script 5,
         BucketOp.remove "m" ModuleType.script 5] = some b' ∧
      (∀ t, sizeVal b' t =
        typeSum (ghostRun [] [BucketOp.add "m" ModuleType.script 5,
          BucketOp.remove "m" ModuleType.script 5]) t) ∧
      (∀ x, x ∈ b'.modules ↔
        x ∈ (ghostRun [] [BucketOp.add "m" ModuleType.script 5,
          BucketOp.remove "m" ModuleType.script 5]).map (·.1))) ∧
    runBucketOps (ModuleBucket.new "b0" [] 0)
      [BucketOp.add "a" ModuleType.script 1,
       BucketOp.remove "c" ModuleType.script 2] = none :=
  module_bucket_accumulator_safety "b" 0
    [BucketOp.add "m" ModuleType.script 5,
     BucketOp.remove "m" ModuleType.script 5] (by decide)

end Farm
